import Mathlib

/-!
Shallow embedding of the expression-evaluation and validation core of the
survey-library repository.

The embedding covers, translated from the TypeScript sources:
  * `src/expressions/expressions.ts` — the `Const` literal coercion
    (`getCorrectValue`, `isBooleanValue`, `isNumericValue`), the
    `BinaryOperand` and `UnaryOperand` constructor consumer selection, and the
    `OperandMaker` unary and binary operator registries;
  * `src/validator.ts` — `ValidatorRunner.run` and `RegexValidator.validate`;
  * `src/survey.ts` — `checkTriggers`, `setValue`, `isValueEqual`,
    `doServerValidation`, `completeServerValidation`, `doNextPage`,
    `doComplete`.

JavaScript runtime values are modelled by the inductive type `JsVal`;
JavaScript numbers (IEEE doubles) are modelled by exact rationals together
with explicit NaN and signed-infinity constructors.  All values appearing in
the proved properties are small integers and short strings, on which double
arithmetic is exact, so the rational model agrees with the runtime there.
-/

/-- Result of a JavaScript numeric conversion: a finite number (modelled as an
exact rational), NaN, or a signed infinity. -/
inductive JsNum where
  | fin (q : Rat)
  | nan
  | inf (neg : Bool)
deriving DecidableEq

/-- JavaScript whitespace accepted by `Number`, `parseFloat` and `parseInt`
(space, tab, line feed, carriage return, vertical tab, form feed, NBSP). -/
def isJsWs (c : Char) : Bool :=
  c = ' ' || c = '\t' || c = '\n' || c = '\r' || c.toNat = 11 || c.toNat = 12 || c.toNat = 160

/-- Numeric value of a decimal digit character. -/
def digToNat (c : Char) : Nat := c.toNat - 48

/-- Whether a character is a hexadecimal digit. -/
def isHexDigit (c : Char) : Bool :=
  c.isDigit || ('a' ≤ c && c ≤ 'f') || ('A' ≤ c && c ≤ 'F')

/-- Numeric value of a hexadecimal digit character. -/
def hexToNat (c : Char) : Nat :=
  if c.isDigit then digToNat c
  else if 'a' ≤ c && c ≤ 'f' then c.toNat - 'a'.toNat + 10
  else c.toNat - 'A'.toNat + 10

/-- Value of a digit string in the given base, most significant digit first. -/
def natOfDigits (base : Nat) (f : Char → Nat) (ds : List Char) : Nat :=
  ds.foldl (fun acc c => acc * base + f c) 0

/-!
The arithmetic on rationals below is written through `mkRat` and the
`num`/`den` fields rather than through the `Rat.add`-style primitives, so
that every operation reduces inside the kernel and concrete instances of the
theorems can be checked by `decide`.  Lemmas later identify these operations
with the ordinary field operations on `ℚ`.
-/

/-- A natural number as a rational. -/
def ratOfNat (n : Nat) : Rat := mkRat n 1

/-- An integer as a rational. -/
def ratOfInt (n : Int) : Rat := mkRat n 1

/-- Kernel-reducible addition on `Rat`. -/
def ratAdd (a b : Rat) : Rat := mkRat (a.num * b.den + b.num * a.den) (a.den * b.den)

/-- Kernel-reducible negation on `Rat`. -/
def ratNeg (a : Rat) : Rat := mkRat (-a.num) a.den

/-- Kernel-reducible subtraction on `Rat`. -/
def ratSub (a b : Rat) : Rat := ratAdd a (ratNeg b)

/-- Kernel-reducible multiplication on `Rat`. -/
def ratMul (a b : Rat) : Rat := mkRat (a.num * b.num) (a.den * b.den)

/-- Kernel-reducible division on `Rat` (zero when the divisor is zero). -/
def ratDiv (a b : Rat) : Rat :=
  let n := a.num * (b.den : Int)
  let d := (a.den : Int) * b.num
  if d < 0 then mkRat (-n) (-d).toNat else mkRat n d.toNat

/-- Kernel-reducible natural power on `Rat`. -/
def ratPowN (a : Rat) (n : Nat) : Rat := mkRat (a.num ^ n) (a.den ^ n)

/-- Truncation toward zero, as JavaScript `Math.trunc`. -/
def ratTrunc (q : Rat) : Int := Int.tdiv q.num q.den

/-- Ten to an integer power, as a rational. -/
def pow10i : Int → Rat
  | Int.ofNat n => ratOfNat (10 ^ n)
  | Int.negSucc n => mkRat 1 (10 ^ (n + 1))

/-- Exact value of a decimal literal with integer digits `ip`, fraction digits
`fp` and decimal exponent `e`. -/
def decValue (ip fp : List Char) (e : Int) : Rat :=
  ratMul
    (mkRat (natOfDigits 10 digToNat ip * 10 ^ fp.length + natOfDigits 10 digToNat fp)
      (10 ^ fp.length))
    (pow10i e)

/-- Parse the digits of an exponent, after an optional sign, requiring the
whole input to be consumed. -/
def expoDigitsAll (neg : Bool) (t : List Char) : Option Int :=
  if t ≠ [] ∧ t.all Char.isDigit then
    some ((if neg then -1 else 1) * (natOfDigits 10 digToNat t : Int))
  else none

/-- Parse a full exponent part `e`/`E` with optional sign; the empty input
denotes exponent zero; anything else fails. -/
def expoAll : List Char → Option Int
  | [] => some 0
  | 'e' :: t =>
    (match t with
     | '+' :: d => expoDigitsAll false d
     | '-' :: d => expoDigitsAll true d
     | d => expoDigitsAll false d)
  | 'E' :: t =>
    (match t with
     | '+' :: d => expoDigitsAll false d
     | '-' :: d => expoDigitsAll true d
     | d => expoDigitsAll false d)
  | _ => none

/-- Parse an unsigned decimal literal (`digits`, `digits.digits`, `.digits`,
optionally followed by an exponent), consuming the whole input. -/
def parseUnsignedDecAll (cs : List Char) : Option Rat :=
  let ip := cs.takeWhile Char.isDigit
  let r1 := cs.dropWhile Char.isDigit
  match r1 with
  | '.' :: t =>
    let fp := t.takeWhile Char.isDigit
    let r2 := t.dropWhile Char.isDigit
    if ip.isEmpty && fp.isEmpty then none
    else (expoAll r2).map (fun e => decValue ip fp e)
  | _ =>
    if ip.isEmpty then none
    else (expoAll r1).map (fun e => decValue ip [] e)

/-- Decimal (or `Infinity`) part of a string numeric literal after an optional
sign has been removed. -/
def signedDecTail (neg : Bool) (rest : List Char) : JsNum :=
  if rest = ['I', 'n', 'f', 'i', 'n', 'i', 't', 'y'] then JsNum.inf neg
  else
    match parseUnsignedDecAll rest with
    | some q => JsNum.fin (if neg then ratNeg q else q)
    | none => JsNum.nan

/-- Sign-aware decimal case of `Number(string)`. -/
def signedDecCase (cs : List Char) : JsNum :=
  match cs with
  | '-' :: t => signedDecTail true t
  | '+' :: t => signedDecTail false t
  | t => signedDecTail false t

/-- The JavaScript `Number(string)` conversion: trims whitespace, maps the
empty string to `0`, accepts signed decimal literals, `Infinity`, and unsigned
`0x`/`0o`/`0b` radix literals; everything else is NaN. -/
def jsStringToNumber (s : String) : JsNum :=
  let cs := (s.toList.dropWhile isJsWs).reverse.dropWhile isJsWs |>.reverse
  if cs.isEmpty then JsNum.fin 0
  else
    match cs with
    | '0' :: c :: ds =>
      if c = 'x' || c = 'X' then
        (if ds ≠ [] ∧ ds.all isHexDigit then JsNum.fin (ratOfNat (natOfDigits 16 hexToNat ds))
         else JsNum.nan)
      else if c = 'o' || c = 'O' then
        (if ds ≠ [] ∧ ds.all (fun d => '0' ≤ d && d ≤ '7') then
           JsNum.fin (ratOfNat (natOfDigits 8 digToNat ds))
         else JsNum.nan)
      else if c = 'b' || c = 'B' then
        (if ds ≠ [] ∧ ds.all (fun d => d = '0' || d = '1') then
           JsNum.fin (ratOfNat (natOfDigits 2 digToNat ds))
         else JsNum.nan)
      else signedDecCase cs
    | _ => signedDecCase cs

/-- Exponent prefix of `parseFloat`: consumes `e`/`E`, an optional sign and
digits when present; an invalid exponent contributes zero (it is simply not
part of the parsed prefix). -/
def expoHead (cs : List Char) : Int :=
  let tail (neg : Bool) (t : List Char) : Int :=
    let d := t.takeWhile Char.isDigit
    if d.isEmpty then 0
    else (if neg then -1 else 1) * (natOfDigits 10 digToNat d : Int)
  match cs with
  | 'e' :: '+' :: t => tail false t
  | 'e' :: '-' :: t => tail true t
  | 'e' :: t => tail false t
  | 'E' :: '+' :: t => tail false t
  | 'E' :: '-' :: t => tail true t
  | 'E' :: t => tail false t
  | _ => 0

/-- The JavaScript `parseFloat(string)`: skips leading whitespace, reads an
optional sign, then the longest decimal-literal (or `Infinity`) prefix; NaN if
no digits are found. -/
def jsParseFloat (s : String) : JsNum :=
  let cs := s.toList.dropWhile isJsWs
  let signed : Bool × List Char :=
    match cs with
    | '-' :: t => (true, t)
    | '+' :: t => (false, t)
    | t => (false, t)
  let neg := signed.1
  let rest := signed.2
  if ['I', 'n', 'f', 'i', 'n', 'i', 't', 'y'].isPrefixOf rest then JsNum.inf neg
  else
    let ip := rest.takeWhile Char.isDigit
    let r1 := rest.dropWhile Char.isDigit
    let withFrac : List Char × List Char :=
      match r1 with
      | '.' :: t => (t.takeWhile Char.isDigit, t.dropWhile Char.isDigit)
      | _ => ([], r1)
    let fp := withFrac.1
    let r2 := withFrac.2
    if ip.isEmpty && fp.isEmpty then JsNum.nan
    else
      let q := decValue ip fp (expoHead r2)
      JsNum.fin (if neg then ratNeg q else q)

/-- The JavaScript `parseInt(string)` with no radix argument: skips
whitespace, reads an optional sign, then either a `0x`/`0X` prefix followed by
the longest hexadecimal-digit prefix, or the longest decimal-digit prefix; NaN
if no digits are found. -/
def jsParseInt (s : String) : JsNum :=
  let cs := s.toList.dropWhile isJsWs
  let signed : Bool × List Char :=
    match cs with
    | '-' :: t => (true, t)
    | '+' :: t => (false, t)
    | t => (false, t)
  let neg := signed.1
  let rest := signed.2
  match rest with
  | '0' :: c :: t =>
    if c = 'x' || c = 'X' then
      let ds := t.takeWhile isHexDigit
      if ds.isEmpty then JsNum.nan
      else JsNum.fin (ratOfInt ((if neg then -1 else 1) * (natOfDigits 16 hexToNat ds : Int)))
    else
      let ds := rest.takeWhile Char.isDigit
      JsNum.fin (ratOfInt ((if neg then -1 else 1) * (natOfDigits 10 digToNat ds : Int)))
  | _ =>
    let ds := rest.takeWhile Char.isDigit
    if ds.isEmpty then JsNum.nan
    else JsNum.fin (ratOfInt ((if neg then -1 else 1) * (natOfDigits 10 digToNat ds : Int)))

/-- A JavaScript runtime value as used by the expression engine: `null`,
`undefined`, booleans, finite numbers (exact rationals), NaN, infinities,
strings, arrays, and an opaque function object (arising only as the result of
applying the `arithmeticOp` registry entry outside its intended use). -/
inductive JsVal where
  | vNull
  | vUndef
  | vBool (b : Bool)
  | vNum (q : Rat)
  | vNaN
  | vInf (neg : Bool)
  | vStr (s : String)
  | vArr (xs : List JsVal)
  | vFunObj

open JsVal

mutual

/-- Boolean structural equality on `JsVal`. -/
def jsValBeq : JsVal → JsVal → Bool
  | vNull, vNull => true
  | vUndef, vUndef => true
  | vBool a, vBool b => a == b
  | vNum a, vNum b => decide (a = b)
  | vNaN, vNaN => true
  | vInf a, vInf b => a == b
  | vStr a, vStr b => a == b
  | vArr xs, vArr ys => jsValListBeq xs ys
  | vFunObj, vFunObj => true
  | _, _ => false
termination_by structural a => a

/-- Boolean structural equality on lists of `JsVal`. -/
def jsValListBeq : List JsVal → List JsVal → Bool
  | [], [] => true
  | x :: xs, y :: ys => jsValBeq x y && jsValListBeq xs ys
  | _, _ => false
termination_by structural xs => xs

end

mutual

theorem jsValBeq_iff : ∀ (a b : JsVal), jsValBeq a b = true ↔ a = b
  | vNull, b => by cases b <;> simp [jsValBeq]
  | vUndef, b => by cases b <;> simp [jsValBeq]
  | vBool a, b => by cases b <;> simp [jsValBeq]
  | vNum a, b => by cases b <;> simp [jsValBeq]
  | vNaN, b => by cases b <;> simp [jsValBeq]
  | vInf a, b => by cases b <;> simp [jsValBeq]
  | vStr a, b => by cases b <;> simp [jsValBeq]
  | vArr xs, b => by
    cases b <;> simp [jsValBeq]
    exact jsValListBeq_iff xs _
  | vFunObj, b => by cases b <;> simp [jsValBeq]

theorem jsValListBeq_iff : ∀ (xs ys : List JsVal), jsValListBeq xs ys = true ↔ xs = ys
  | [], ys => by cases ys <;> simp [jsValListBeq]
  | x :: xs, [] => by simp [jsValListBeq]
  | x :: xs, y :: ys => by
    simp [jsValListBeq, jsValBeq_iff x y, jsValListBeq_iff xs ys]

end

instance : DecidableEq JsVal := fun a b => decidable_of_iff _ (jsValBeq_iff a b)

/-- JavaScript truthiness of a value. -/
def jsTruthy : JsVal → Bool
  | vNull => false
  | vUndef => false
  | vBool b => b
  | vNum q => decide (q ≠ 0)
  | vNaN => false
  | vInf _ => true
  | vStr s => !s.isEmpty
  | vArr _ => true
  | vFunObj => true

/-- Decimal rendering of a rational.  Integers print exactly as JavaScript
prints them; a non-integral rational falls back to a `num/den` rendering
(JavaScript would print a decimal expansion instead, but no proved property
evaluates `toString` on a non-integral number). -/
def ratToStr (q : Rat) : String :=
  if q.den = 1 then toString q.num
  else toString q.num ++ "/" ++ toString q.den

mutual

/-- JavaScript `String(value)` conversion.  Arrays render as their elements
joined by commas (`Array.prototype.toString`), with `null` and `undefined`
elements rendered as the empty string. -/
def jsToString : JsVal → String
  | vNull => "null"
  | vUndef => "undefined"
  | vBool b => if b then "true" else "false"
  | vNum q => ratToStr q
  | vNaN => "NaN"
  | vInf n => if n then "-Infinity" else "Infinity"
  | vStr s => s
  | vArr xs => jsArrJoin xs
  | vFunObj => "function () \x7b\x7d"
termination_by structural v => v

/-- Comma join used by `Array.prototype.toString`; `null` and `undefined`
elements render as the empty string. -/
def jsArrJoin : List JsVal → String
  | [] => ""
  | vNull :: xs => (if xs.isEmpty then "" else ",") ++ jsArrJoin xs
  | vUndef :: xs => (if xs.isEmpty then "" else ",") ++ jsArrJoin xs
  | x :: xs => jsToString x ++ (if xs.isEmpty then "" else ",") ++ jsArrJoin xs
termination_by structural xs => xs

end

/-- JavaScript `ToNumber` conversion. -/
def jsToNumber : JsVal → JsNum
  | vNull => JsNum.fin 0
  | vUndef => JsNum.nan
  | vBool b => JsNum.fin (if b then 1 else 0)
  | vNum q => JsNum.fin q
  | vNaN => JsNum.nan
  | vInf n => JsNum.inf n
  | vStr s => jsStringToNumber s
  | vArr xs => jsStringToNumber (jsArrJoin xs)
  | vFunObj => JsNum.nan

/-- A `JsNum` as a `JsVal`. -/
def ofJsNum : JsNum → JsVal
  | JsNum.fin q => vNum q
  | JsNum.nan => vNaN
  | JsNum.inf n => vInf n

/-- Index of the first occurrence of `sub` in the character list, if any. -/
def indexOfAux (sub : List Char) : List Char → Option Nat
  | [] => if sub.isPrefixOf ([] : List Char) then some 0 else none
  | c :: t =>
    if sub.isPrefixOf (c :: t) then some 0
    else (indexOfAux sub t).map (· + 1)

/-- JavaScript `String.prototype.indexOf`: first index of the substring, or
`-1` when absent. -/
def jsIndexOf (s sub : String) : Int :=
  match indexOfAux sub.toList s.toList with
  | some n => (n : Int)
  | none => -1

/-- ASCII lower-casing of a character, as `String.prototype.toLowerCase`
behaves on the ASCII range (the only range the sources compare against). -/
def charToLower (c : Char) : Char :=
  if 'A' ≤ c && c ≤ 'Z' then Char.ofNat (c.toNat + 32) else c

/-- ASCII lower-casing of a string. -/
def strToLower (s : String) : String := String.mk (s.toList.map charToLower)

/-- Translation of `Const.isBooleanValue` (expressions.ts): a non-empty
string equal, case-insensitively, to `true` or `false`. -/
def isBooleanValue (s : String) : Bool :=
  !s.isEmpty && (strToLower s = "true" || strToLower s = "false")

/-- Translation of `Const.isNumericValue` (expressions.ts): the string is
rejected when it contains a minus sign, `*`, `^`, `/` or `%` anywhere, or a
plus sign at an index greater than 1; otherwise it is numeric exactly when
`Number(value)` is finite. -/
def isNumericValue (s : String) : Bool :=
  if !s.isEmpty
      ∧ (jsIndexOf s "-" > -1 ∨ jsIndexOf s "+" > 1 ∨ jsIndexOf s "*" > -1
         ∨ jsIndexOf s "^" > -1 ∨ jsIndexOf s "/" > -1 ∨ jsIndexOf s "%" > -1) then
    false
  else
    match jsStringToNumber s with
    | JsNum.fin _ => true
    | _ => false

/-- Translation of `Const.getCorrectValue` (expressions.ts): falsy and
non-string values pass through; boolean-looking strings become booleans;
numeric strings become numbers, parsed by `parseInt` when the literal starts
with `0x` and by `parseFloat` otherwise. -/
def getCorrectValue (value : JsVal) : JsVal :=
  match value with
  | vStr s =>
    if s.isEmpty then vStr s
    else if isBooleanValue s then vBool (strToLower s = "true")
    else if isNumericValue s then
      (if jsIndexOf s "0x" = 0 then ofJsNum (jsParseInt s) else ofJsNum (jsParseFloat s))
    else vStr s
  | v => v

namespace Helpers

/-- Modelled from the spec: `Helpers.isValueEmpty` lives in `src/helpers.ts`,
which is not among the repository sources (only its callers are).  Following
the wording of the spec, which treats `null`, `undefined`, the empty string
and empty sequences as empty while distinguishing the number zero from an
empty operand (div and mod treat "zero" and "empty" as separate cases), a
value is empty exactly when it is `null`, `undefined`, the empty string, an
empty array, or NaN (a falsy non-zero non-boolean value). -/
def isValueEmpty : JsVal → Bool
  | vNull => true
  | vUndef => true
  | vStr s => s.isEmpty
  | vArr xs => xs.isEmpty
  | vNaN => true
  | _ => false

mutual

/-- Modelled from the spec: `Helpers.isTwoValueEquals` lives in
`src/helpers.ts`, which is not among the repository sources.  The spec
describes it as deep, type-normalizing equality: numbers and numeric strings
compare by value, arrays compare element-wise, and `undefined` is identified
with `null`.  NaN-against-NaN and the opaque function object compare equal
here (structural reading of deep equality); no proved property depends on
those corners. -/
def eqDeep : JsVal → JsVal → Bool
  | vNull, vNull => true
  | vNull, vUndef => true
  | vUndef, vNull => true
  | vUndef, vUndef => true
  | vBool a, vBool b => a == b
  | vNum a, vNum b => decide (a = b)
  | vNum a, vStr s =>
    (match jsStringToNumber s with
     | JsNum.fin b => decide (a = b)
     | _ => false)
  | vStr s, vNum b =>
    (match jsStringToNumber s with
     | JsNum.fin a => decide (a = b)
     | _ => false)
  | vNaN, vNaN => true
  | vInf a, vInf b => a == b
  | vStr a, vStr b => a == b
  | vArr xs, vArr ys => eqDeepList xs ys
  | vFunObj, vFunObj => true
  | _, _ => false
termination_by structural a => a

/-- Element-wise deep equality on lists of values. -/
def eqDeepList : List JsVal → List JsVal → Bool
  | [], [] => true
  | x :: xs, y :: ys => eqDeep x y && eqDeepList xs ys
  | _, _ => false
termination_by structural xs => xs

end

/-- The two-argument form `Helpers.isTwoValueEquals(x, y)` used by the
expression operators and the survey model. -/
def isTwoValueEquals (a b : JsVal) : Bool := eqDeep a b

end Helpers

mutual

theorem eqDeep_refl : ∀ (a : JsVal), Helpers.eqDeep a a = true
  | vNull => rfl
  | vUndef => rfl
  | vBool b => by simp [Helpers.eqDeep]
  | vNum q => by simp [Helpers.eqDeep]
  | vNaN => rfl
  | vInf n => by simp [Helpers.eqDeep]
  | vStr s => by simp [Helpers.eqDeep]
  | vArr xs => eqDeepList_refl xs
  | vFunObj => rfl

theorem eqDeepList_refl : ∀ (xs : List JsVal), Helpers.eqDeepList xs xs = true
  | [] => rfl
  | x :: xs => by
    simp [Helpers.eqDeepList, eqDeep_refl x, eqDeepList_refl xs]

end

theorem isTwoValueEquals_refl (a : JsVal) : Helpers.isTwoValueEquals a a = true :=
  eqDeep_refl a

namespace OperandMaker

/-- Error text raised by `OperandMaker.throwInvalidOperatorError`
(expressions.ts); the original message wraps the operator name in single
quotation marks. -/
def invalidOperatorMessage (op : String) : String :=
  "Invalid operator: " ++ op

/-- Translation of `OperandMaker.unaryFunctions.empty` (expressions.ts):
`value == null` is true for `null` and `undefined`, otherwise the result is
the logical negation of the value. -/
def uEmptyB : JsVal → Bool
  | vNull => true
  | vUndef => true
  | v => !jsTruthy v

/-- Translation of `OperandMaker.unaryFunctions.notempty`. -/
def uNotEmptyB (v : JsVal) : Bool := !uEmptyB v

/-- Translation of `OperandMaker.unaryFunctions.negate`. -/
def uNegateB (v : JsVal) : Bool := !jsTruthy v

/-- The unary operator registry `OperandMaker.unaryFunctions`
(expressions.ts), as a name-indexed lookup. -/
def unaryFunctions (name : String) : Option (JsVal → JsVal) :=
  match name with
  | "empty" => some (fun v => vBool (uEmptyB v))
  | "notempty" => some (fun v => vBool (uNotEmptyB v))
  | "negate" => some (fun v => vBool (uNegateB v))
  | _ => none

/-- Translation of `OperandMaker.binaryFunctions.containsCore`
(expressions.ts).  A falsy left side contains nothing; a left side without a
truthy `length` property is converted to its string form and searched as a
substring; an array left side is searched element-wise with
`Helpers.isTwoValueEquals`, broadcasting a non-array right side as a
singleton. -/
def containsCore (left right : JsVal) (isContains : Bool) : Bool :=
  if !jsTruthy left then false
  else
    match left with
    | vArr xs =>
      if xs.isEmpty then
        containsStr (jsArrJoin xs) right isContains
      else
        let rightArr := match right with
          | vArr rs => rs
          | r => [r]
        if rightArr.all (fun r => xs.any (fun l => Helpers.isTwoValueEquals l r)) then
          isContains
        else !isContains
    | vStr s => containsStr s right isContains
    | v => containsStr (jsToString v) right isContains
where
  /-- String branch of `containsCore`: substring search via `indexOf`. -/
  containsStr (s : String) (right : JsVal) (isContains : Bool) : Bool :=
    if !jsTruthy right then false
    else
      let found := jsIndexOf s (jsToString right) > -1
      if isContains then found else !found

/-- Translation of `OperandMaker.binaryFunctions.contains`. -/
def containsB (left right : JsVal) : Bool := containsCore left right true

/-- Translation of `OperandMaker.binaryFunctions.notcontains`. -/
def notcontainsB (left right : JsVal) : Bool :=
  if !jsTruthy left && !Helpers.isValueEmpty right then true
  else containsCore left right false

/-- Translation of `OperandMaker.binaryFunctions.anyof` (expressions.ts). -/
def anyofB (left right : JsVal) : Bool :=
  if !jsTruthy left && Helpers.isValueEmpty right then true
  else if !jsTruthy left
      || !(match left with | vArr _ => true | _ => false)
      || (match left with | vArr xs => xs.isEmpty | _ => false) then false
  else if Helpers.isValueEmpty right then true
  else
    match right with
    | vArr rs => rs.any (fun r => containsB left r)
    | r => containsB left r

/-- Translation of `OperandMaker.binaryFunctions.allof` (expressions.ts). -/
def allofB (left right : JsVal) : Bool :=
  if !jsTruthy left && !Helpers.isValueEmpty right then false
  else
    match right with
    | vArr rs => rs.all (fun r => containsB left r)
    | r => containsB left r

end OperandMaker

/-- Whether a rational is an odd integer (used by the power sign rules). -/
def ratIsOddInt (q : Rat) : Bool := q.den = 1 && decide (q.num % 2 ≠ 0)

/-- Addition of JavaScript numbers. -/
def jnAdd : JsNum → JsNum → JsNum
  | JsNum.nan, _ => JsNum.nan
  | _, JsNum.nan => JsNum.nan
  | JsNum.fin x, JsNum.fin y => JsNum.fin (ratAdd x y)
  | JsNum.inf n, JsNum.inf m => if n == m then JsNum.inf n else JsNum.nan
  | JsNum.inf n, JsNum.fin _ => JsNum.inf n
  | JsNum.fin _, JsNum.inf m => JsNum.inf m

/-- Negation of a JavaScript number. -/
def jnNeg : JsNum → JsNum
  | JsNum.fin x => JsNum.fin (ratNeg x)
  | JsNum.nan => JsNum.nan
  | JsNum.inf n => JsNum.inf (!n)

/-- Subtraction of JavaScript numbers. -/
def jnSub (a b : JsNum) : JsNum := jnAdd a (jnNeg b)

/-- Multiplication of JavaScript numbers. -/
def jnMul : JsNum → JsNum → JsNum
  | JsNum.nan, _ => JsNum.nan
  | _, JsNum.nan => JsNum.nan
  | JsNum.fin x, JsNum.fin y => JsNum.fin (ratMul x y)
  | JsNum.inf n, JsNum.inf m => JsNum.inf (n != m)
  | JsNum.inf n, JsNum.fin y =>
    if y = 0 then JsNum.nan else JsNum.inf (n != decide (y < 0))
  | JsNum.fin x, JsNum.inf m =>
    if x = 0 then JsNum.nan else JsNum.inf (m != decide (x < 0))

/-- Division of JavaScript numbers (division by zero yields an infinity, zero
by zero yields NaN). -/
def jnDiv : JsNum → JsNum → JsNum
  | JsNum.nan, _ => JsNum.nan
  | _, JsNum.nan => JsNum.nan
  | JsNum.fin x, JsNum.fin y =>
    if y = 0 then (if x = 0 then JsNum.nan else JsNum.inf (decide (x < 0)))
    else JsNum.fin (ratDiv x y)
  | JsNum.fin _, JsNum.inf _ => JsNum.fin 0
  | JsNum.inf n, JsNum.fin y => JsNum.inf (n != decide (y < 0))
  | JsNum.inf _, JsNum.inf _ => JsNum.nan

/-- Remainder of JavaScript numbers (sign follows the dividend, as `%`). -/
def jnMod : JsNum → JsNum → JsNum
  | JsNum.nan, _ => JsNum.nan
  | _, JsNum.nan => JsNum.nan
  | JsNum.fin x, JsNum.fin y =>
    if y = 0 then JsNum.nan
    else JsNum.fin (ratSub x (ratMul y (ratOfInt (ratTrunc (ratDiv x y)))))
  | JsNum.fin x, JsNum.inf _ => JsNum.fin x
  | JsNum.inf _, _ => JsNum.nan

/-- Power of JavaScript numbers, as `Math.pow`.  A finite base raised to a
non-integral finite exponent is modelled as NaN: the true result is
irrational in general and not representable in the rational model; no proved
property evaluates that corner. -/
def jnPow (a b : JsNum) : JsNum :=
  match b with
  | JsNum.fin y =>
    if y = 0 then JsNum.fin 1
    else
      match a with
      | JsNum.nan => JsNum.nan
      | JsNum.inf n =>
        if 0 < y then JsNum.inf (n && ratIsOddInt y) else JsNum.fin 0
      | JsNum.fin x =>
        if y.den = 1 then
          (if 0 ≤ y.num then JsNum.fin (ratPowN x y.num.toNat)
           else if x = 0 then JsNum.inf false
           else JsNum.fin (ratDiv 1 (ratPowN x (-y.num).toNat)))
        else JsNum.nan
  | JsNum.nan => JsNum.nan
  | JsNum.inf m =>
    match a with
    | JsNum.nan => JsNum.nan
    | JsNum.inf _ => if m then JsNum.fin 0 else JsNum.inf false
    | JsNum.fin x =>
      if 1 < |x| then (if m then JsNum.fin 0 else JsNum.inf false)
      else if |x| < 1 then (if m then JsNum.inf false else JsNum.fin 0)
      else JsNum.nan

/-- JavaScript `ToPrimitive` as used by `+` and the relational operators:
arrays (and the opaque function object) convert to their string form. -/
def toPrimitiveV : JsVal → JsVal
  | vArr xs => vStr (jsArrJoin xs)
  | vFunObj => vStr (jsToString vFunObj)
  | v => v

/-- Whether a value is a string. -/
def isStrV : JsVal → Bool
  | vStr _ => true
  | _ => false

namespace OperandMaker

/-- Translation of `OperandMaker.binaryFunctions.plus` under full JavaScript
`+` semantics: after `ToPrimitive`, a string on either side concatenates,
otherwise both sides convert to numbers and add. -/
def plusF (a b : JsVal) : JsVal :=
  let pa := toPrimitiveV a
  let pb := toPrimitiveV b
  if isStrV pa || isStrV pb then vStr (jsToString pa ++ jsToString pb)
  else ofJsNum (jnAdd (jsToNumber pa) (jsToNumber pb))

/-- Translation of `OperandMaker.binaryFunctions.minus`. -/
def minusF (a b : JsVal) : JsVal := ofJsNum (jnSub (jsToNumber a) (jsToNumber b))

/-- Translation of `OperandMaker.binaryFunctions.mul`. -/
def mulF (a b : JsVal) : JsVal := ofJsNum (jnMul (jsToNumber a) (jsToNumber b))

/-- Translation of `OperandMaker.binaryFunctions.div`: a falsy divisor yields
`null`, otherwise the JavaScript quotient. -/
def divF (a b : JsVal) : JsVal :=
  if !jsTruthy b then vNull
  else ofJsNum (jnDiv (jsToNumber a) (jsToNumber b))

/-- Translation of `OperandMaker.binaryFunctions.mod`: a falsy divisor yields
`null`, otherwise the JavaScript remainder. -/
def modF (a b : JsVal) : JsVal :=
  if !jsTruthy b then vNull
  else ofJsNum (jnMod (jsToNumber a) (jsToNumber b))

/-- Translation of `OperandMaker.binaryFunctions.power`, via `Math.pow`. -/
def powerF (a b : JsVal) : JsVal := ofJsNum (jnPow (jsToNumber a) (jsToNumber b))

/-- A value that JavaScript `==` considers equal to `null` (that is, `null`
or `undefined`), as tested by the comparison guards. -/
def isLooseNull : JsVal → Bool
  | vNull => true
  | vUndef => true
  | _ => false

/-- Lexicographic comparison of character lists. -/
def charListCmp : List Char → List Char → Ordering
  | [], [] => Ordering.eq
  | [], _ :: _ => Ordering.lt
  | _ :: _, [] => Ordering.gt
  | a :: xs, b :: ys =>
    if a < b then Ordering.lt
    else if b < a then Ordering.gt
    else charListCmp xs ys

/-- Comparison of JavaScript numbers; `none` when NaN is involved. -/
def jnCmp : JsNum → JsNum → Option Ordering
  | JsNum.nan, _ => none
  | _, JsNum.nan => none
  | JsNum.fin x, JsNum.fin y =>
    some (if decide (x < y) then Ordering.lt
          else if decide (y < x) then Ordering.gt else Ordering.eq)
  | JsNum.inf n, JsNum.inf m =>
    some (if n == m then Ordering.eq else if n then Ordering.lt else Ordering.gt)
  | JsNum.inf n, JsNum.fin _ => some (if n then Ordering.lt else Ordering.gt)
  | JsNum.fin _, JsNum.inf m => some (if m then Ordering.gt else Ordering.lt)

/-- JavaScript relational comparison: both sides pass through `ToPrimitive`;
two strings compare lexicographically, otherwise both convert to numbers;
`none` when a NaN is involved (every relational operator is then false). -/
def jsRelCmp (a b : JsVal) : Option Ordering :=
  match toPrimitiveV a, toPrimitiveV b with
  | vStr s, vStr t => some (charListCmp s.toList t.toList)
  | pa, pb => jnCmp (jsToNumber pa) (jsToNumber pb)

/-- Translation of `OperandMaker.binaryFunctions.greater`: false when either
side is `null`/`undefined`, otherwise the raw `>` comparison. -/
def greaterB (left right : JsVal) : Bool :=
  if isLooseNull left || isLooseNull right then false
  else jsRelCmp left right == some Ordering.gt

/-- Translation of `OperandMaker.binaryFunctions.less`. -/
def lessB (left right : JsVal) : Bool :=
  if isLooseNull left || isLooseNull right then false
  else jsRelCmp left right == some Ordering.lt

/-- Translation of `OperandMaker.binaryFunctions.greaterorequal`. -/
def greaterorequalB (left right : JsVal) : Bool :=
  if isLooseNull left || isLooseNull right then false
  else
    match jsRelCmp left right with
    | some Ordering.gt => true
    | some Ordering.eq => true
    | _ => false

/-- Translation of `OperandMaker.binaryFunctions.lessorequal`. -/
def lessorequalB (left right : JsVal) : Bool :=
  if isLooseNull left || isLooseNull right then false
  else
    match jsRelCmp left right with
    | some Ordering.lt => true
    | some Ordering.eq => true
    | _ => false

/-- The binary operator registry `OperandMaker.binaryFunctions`
(expressions.ts), as a name-indexed lookup.  Besides the operators proper,
the underlying hash table also exposes its two helper entries: `containsCore`
(called with two arguments, so its `isContains` parameter is undefined and
falsy) and `arithmeticOp` (a unary function returning a closure; applying it
through the binary calling convention yields a function object, modelled by
the opaque `vFunObj`). -/
def binaryFunctions (name : String) : Option (JsVal → JsVal → JsVal) :=
  match name with
  | "arithmeticOp" => some (fun _ _ => vFunObj)
  | "and" => some (fun a b => if jsTruthy a then b else a)
  | "or" => some (fun a b => if jsTruthy a then a else b)
  | "plus" => some plusF
  | "minus" => some minusF
  | "mul" => some mulF
  | "div" => some divF
  | "mod" => some modF
  | "power" => some powerF
  | "greater" => some (fun l r => vBool (greaterB l r))
  | "less" => some (fun l r => vBool (lessB l r))
  | "greaterorequal" => some (fun l r => vBool (greaterorequalB l r))
  | "lessorequal" => some (fun l r => vBool (lessorequalB l r))
  | "equal" => some (fun l r => vBool (Helpers.isTwoValueEquals l r))
  | "notequal" => some (fun l r => vBool (!Helpers.isTwoValueEquals l r))
  | "contains" => some (fun l r => vBool (containsB l r))
  | "notcontains" => some (fun l r => vBool (notcontainsB l r))
  | "anyof" => some (fun l r => vBool (anyofB l r))
  | "allof" => some (fun l r => vBool (allofB l r))
  | "containsCore" => some (fun l r => vBool (containsCore l r false))
  | _ => none

/-- Translation of `OperandMaker.binaryFunctions.arithmeticOp`
(expressions.ts): the closure it returns replaces empty operands by `0`, then
looks the named operator up in the registry, returning `null` when the name
is unknown. -/
def arithmeticOp (operatorName : String) (a b : JsVal) : JsVal :=
  let a := if Helpers.isValueEmpty a then vNum 0 else a
  let b := if Helpers.isValueEmpty b then vNum 0 else b
  match binaryFunctions operatorName with
  | none => vNull
  | some consumer => consumer a b

end OperandMaker

/-- Consumer selection in the `BinaryOperand` constructor (expressions.ts):
with `isArithmeticOp` set the consumer is the closure made by `arithmeticOp`
(never null, whatever the name); otherwise it is the registry entry, and a
missing entry raises the invalid-operator error at construction time. -/
def BinaryOperand.create (operatorName : String) (isArithmeticOp : Bool) :
    Except String (JsVal → JsVal → JsVal) :=
  let consumer :=
    if isArithmeticOp then some (OperandMaker.arithmeticOp operatorName)
    else OperandMaker.binaryFunctions operatorName
  match consumer with
  | none => Except.error (OperandMaker.invalidOperatorMessage operatorName)
  | some f => Except.ok f

/-- Consumer selection in the `UnaryOperand` constructor (expressions.ts): a
missing registry entry raises the invalid-operator error at construction
time. -/
def UnaryOperand.create (operatorName : String) : Except String (JsVal → JsVal) :=
  match OperandMaker.unaryFunctions operatorName with
  | none => Except.error (OperandMaker.invalidOperatorMessage operatorName)
  | some f => Except.ok f

/-- Translation of `Const.evaluate` (expressions.ts). -/
def Const.evaluate (value : JsVal) : JsVal := getCorrectValue value

/-- A survey error carried by a failed validation, reduced to its user-facing
text (the localization machinery is outside the modelled core; the custom
error raised by a validator carries the name it was created from). -/
structure SurveyErrorM where
  text : String
deriving DecidableEq

/-- Translation of `ValidatorResult` (validator.ts): a normalized value and
an optional error. -/
structure ValidatorResult where
  value : JsVal
  error : Option SurveyErrorM

/-- A compiled regular expression, abstracted as the `test` predicate of the
external `RegExp` engine together with the source pattern.  `RegExp.test`
coerces its argument to a string, so `test` receives the `jsToString` form of
the tested value. -/
structure RegexValidatorM where
  regex : String
  test : String → Bool

namespace RegexValidatorM

/-- The private `RegexValidator.hasError` (validator.ts): `null` when the
pattern matches, otherwise a result carrying the failing value and a custom
error. -/
def hasError (rv : RegexValidatorM) (value : JsVal) (name : String) :
    Option ValidatorResult :=
  if rv.test (jsToString value) then none
  else some ⟨value, some ⟨name⟩⟩

/-- The element loop inside `RegexValidator.validate`: the first failing
element produces the result. -/
def elemLoop (rv : RegexValidatorM) (name : String) : List JsVal → Option ValidatorResult
  | [] => none
  | x :: xs =>
    match hasError rv x name with
    | some res => some res
    | none => elemLoop rv name xs

/-- Translation of `RegexValidator.validate` (validator.ts): an absent or
empty pattern and empty values validate trivially; for an array the elements
are tested in order and the first failure is returned; when every element
passes, control falls through to a final `hasError` applied to the whole
value (the array itself, string-coerced); non-array values are tested
directly. -/
def validate (rv : RegexValidatorM) (value : JsVal) (name : String) :
    Option ValidatorResult :=
  if rv.regex.isEmpty || Helpers.isValueEmpty value then none
  else
    match value with
    | vArr xs =>
      (match elemLoop rv name xs with
       | some res => some res
       | none => hasError rv value name)
    | v => hasError rv v name

end RegexValidatorM

/-- A validator as seen by `ValidatorRunner.run` (validator.ts): the
`isValidateAllValues` flag selects which of the two validation entry points
the runner invokes.  The entry points themselves are arbitrary functions
(each concrete validator class supplies its own). -/
structure ValidatorM where
  isValidateAllValues : Bool
  validate : JsVal → String → Option ValidatorResult
  validateAllValues :
    JsVal → List (String × JsVal) → List (String × JsVal) → String → Option ValidatorResult

/-- The `IValidatorOwner` context that `ValidatorRunner.run` reads: the
attached validators in registration order, the validated value, the title,
and the filtered values and properties handed to whole-dataset validators. -/
structure ValidatorOwnerM where
  validators : List ValidatorM
  validatedValue : JsVal
  title : String
  filteredValues : List (String × JsVal)
  filteredProperties : List (String × JsVal)

/-- One iteration of the `ValidatorRunner.run` loop: single-value validators
are invoked through `validate`, whole-dataset validators through
`validateAllValues`. -/
def applyValidator (o : ValidatorOwnerM) (v : ValidatorM) : Option ValidatorResult :=
  if !v.isValidateAllValues then v.validate o.validatedValue o.title
  else v.validateAllValues o.validatedValue o.filteredValues o.filteredProperties o.title

/-- The collection loop of `ValidatorRunner.run`: a non-null result carrying
a non-null error is appended to the output; the loop always continues to the
next validator. -/
def runLoop (o : ValidatorOwnerM) : List ValidatorM → List SurveyErrorM
  | [] => []
  | v :: vs =>
    match applyValidator o v with
    | some res =>
      (match res.error with
       | some e => e :: runLoop o vs
       | none => runLoop o vs)
    | none => runLoop o vs

/-- Translation of `ValidatorRunner.run` (validator.ts). -/
def ValidatorRunner.run (o : ValidatorOwnerM) : List SurveyErrorM :=
  runLoop o o.validators

/-- A trigger as seen by `SurveyModel.checkTriggers`: its scope flag and an
identifier.  The body of `Trigger.checkExpression` lives in `src/trigger.ts`,
which is not among the repository sources; evaluating a trigger is therefore
modelled as an observable event rather than a state change (the claims below
only concern whether evaluation happens at all). -/
structure TriggerM where
  isOnNextPage : Bool
  id : Nat
deriving DecidableEq

/-- An observable action performed by the survey model while processing a
value change; trigger evaluation, condition recomputation and notifications
are externally visible effects of `setValue` and `checkTriggers`. -/
inductive Event where
  | valueDeleted (name : String)
  | valueWritten (name : String)
  | questionValueUpdated (name : String)
  | triggerChecked (id : Nat)
  | conditionsRun
  | valueChangedNotified (name : String)
  | tryGoNextPage (name : String)
deriving DecidableEq

/-- The state of a `SurveyModel` relevant to the claims: the value store
(`valuesHash`), the completion flag, the triggers, the current page index and
page count (all pages modelled visible), the server-validation flag, the
number of `onComplete` firings, the question names, the errors added by
server validation, and the JSON-loading flag read by `runConditions`. -/
structure SurveyState where
  values : List (String × JsVal)
  isCompleted : Bool
  triggers : List TriggerM
  currentPageIndex : Nat
  pageCount : Nat
  isValidatingOnServer : Bool
  completeFired : Nat
  questionNames : List String
  addedErrors : List (String × String)
  isEndLoadingFromJsonProcessing : Bool

/-- Association-list update for the value store. -/
def setAssoc : List (String × JsVal) → String → JsVal → List (String × JsVal)
  | [], n, v => [(n, v)]
  | (k, w) :: t, n, v =>
    if k = n then (k, v) :: t else (k, w) :: setAssoc t n v

/-- Association-list removal for the value store. -/
def delAssoc : List (String × JsVal) → String → List (String × JsVal)
  | [], _ => []
  | (k, w) :: t, n =>
    if k = n then t else (k, w) :: delAssoc t n

/-- Association-list lookup for the value store. -/
def getAssoc : List (String × JsVal) → String → Option JsVal
  | [], _ => none
  | (k, w) :: t, n => if k = n then some w else getAssoc t n

namespace SurveyModel

/-- Translation of `SurveyModel.getValue` (survey.ts): an empty name reads as
`null`; a missing entry reads as `undefined` (the raw hash access). -/
def getValue (s : SurveyState) (name : String) : JsVal :=
  if name.isEmpty then vNull
  else
    match getAssoc s.values name with
    | some v => v
    | none => vUndef

/-- Whether a value is exactly `null` (strict equality against `null`). -/
def isStrictNull : JsVal → Bool
  | vNull => true
  | _ => false

/-- Normalization step of `isValueEqual`: the empty string and `undefined`
are identified with `null`. -/
def normNullish (v : JsVal) : JsVal :=
  match v with
  | vStr s => if s.isEmpty then vNull else vStr s
  | vUndef => vNull
  | v => v

/-- Translation of `SurveyModel.isValueEqual` (survey.ts): both the new and
the stored value are normalized, a `null` on either side demands `null` on
both, and otherwise the deep equality helper decides. -/
def isValueEqual (s : SurveyState) (name : String) (newValue : JsVal) : Bool :=
  let nv := normNullish newValue
  let ov := normNullish (getValue s name)
  if isStrictNull nv || isStrictNull ov then isStrictNull nv && isStrictNull ov
  else Helpers.isTwoValueEquals nv ov

/-- Translation of `SurveyModel.checkTriggers` (survey.ts), as the list of
trigger evaluations it performs: nothing once the survey is completed or when
there are no triggers; otherwise every trigger whose scope flag matches is
evaluated, in order. -/
def checkTriggersEvents (s : SurveyState) (isOnNextPage : Bool) : List Event :=
  if s.isCompleted || s.triggers.length = 0 then []
  else
    (s.triggers.filter (fun t => t.isOnNextPage == isOnNextPage)).map
      (fun t => Event.triggerChecked t.id)

/-- Translation of `SurveyModel.runConditions` (survey.ts), as the condition
recomputation it performs: nothing once the survey is completed or while the
JSON document is still loading. -/
def runConditionsEvents (s : SurveyState) : List Event :=
  if s.isCompleted || s.isEndLoadingFromJsonProcessing then []
  else [Event.conditionsRun]

/-- Translation of `SurveyModel.setValue` (survey.ts).  The
`questionOnValueChanging` hook is a parameter (its behavior is installed by
survey consumers); `updateQuestionValue`, the value-changed notification and
`tryGoNextPageAutomatic` touch question view-model objects outside the
modelled state and are recorded as events.  The function returns the new
state together with the list of performed actions; the early return when the
incoming value already equals the stored one produces the unchanged state and
no actions. -/
def setValue (hook : String → JsVal → JsVal) (s : SurveyState) (name : String)
    (newQuestionValue : JsVal) (locNotification : Bool) : SurveyState × List Event :=
  let newValue := hook name newQuestionValue
  if isValueEqual s name newValue && Helpers.isTwoValueEquals newValue newQuestionValue then
    (s, [])
  else
    let stored :=
      if Helpers.isValueEmpty newValue then
        ({ s with values := delAssoc s.values name }, [Event.valueDeleted name])
      else
        ({ s with values := setAssoc s.values name newValue }, [Event.valueWritten name])
    let s1 := stored.1
    let ev1 := stored.2 ++ [Event.questionValueUpdated name]
    if locNotification then (s1, ev1)
    else
      (s1, ev1 ++ checkTriggersEvents s1 false ++ runConditionsEvents s1
        ++ [Event.valueChangedNotified name, Event.tryGoNextPage name])

/-- Translation of `SurveyModel.doComplete` (survey.ts), restricted to the
modelled state: the default `onCompleting` options allow completion, the
survey enters the completed state and `onComplete` fires (counted; cookies,
timers and result posting are external side effects). -/
def doComplete (s : SurveyState) : SurveyState :=
  { s with isCompleted := true, completeFired := s.completeFired + 1 }

/-- Translation of `SurveyModel.isLastPage` over the modelled page list. -/
def isLastPage (s : SurveyState) : Bool :=
  s.currentPageIndex = s.pageCount - 1

/-- Translation of `SurveyModel.doNextPage` (survey.ts): on-next-page
triggers are evaluated (events only, see `TriggerM`); then either the current
page advances or, when a trigger completed the survey, `doComplete` runs. -/
def doNextPage (s : SurveyState) : SurveyState :=
  if !s.isCompleted then { s with currentPageIndex := s.currentPageIndex + 1 }
  else doComplete s

/-- Translation of `SurveyModel.completeServerValidation` (survey.ts): the
pending flag clears, every reported error naming an existing question is
added to that question, and when no error was added the survey either
completes (last page) or advances to the next page.  The function has no
guard against being invoked again. -/
def completeServerValidation (s : SurveyState) (errors : List (String × String)) :
    SurveyState :=
  let s1 := { s with isValidatingOnServer := false }
  let relevant := errors.filter (fun p => s1.questionNames.contains p.1)
  let s2 := { s1 with addedErrors := s1.addedErrors ++ relevant }
  if relevant.isEmpty then
    (if isLastPage s2 then doComplete s2 else doNextPage s2)
  else s2

/-- Translation of `SurveyModel.doServerValidation` (survey.ts), restricted
to the modelled state: with no registered `onServerValidateQuestions`
handlers it returns false and does nothing; otherwise it marks validation as
pending and returns true, and the completion callback it hands to the
handlers is `completeServerValidation` applied to the collected options. -/
def doServerValidation (s : SurveyState) (hasHandlers : Bool) : Bool × SurveyState :=
  if !hasHandlers then (false, s)
  else (true, { s with isValidatingOnServer := true })

end SurveyModel

/-!  Lemmas identifying the kernel-reducible rational operations with the
field operations on `ℚ`. -/

theorem ratAdd_eq (a b : Rat) : ratAdd a b = a + b := by
  unfold ratAdd
  rw [Rat.mkRat_eq_div]
  have ha : ((a.den : ℚ)) ≠ 0 := Nat.cast_ne_zero.mpr a.den_nz
  have hb : ((b.den : ℚ)) ≠ 0 := Nat.cast_ne_zero.mpr b.den_nz
  push_cast
  conv_rhs => rw [← Rat.num_div_den a, ← Rat.num_div_den b]
  field_simp

theorem ratNeg_eq (a : Rat) : ratNeg a = -a := by
  unfold ratNeg
  rw [Rat.mkRat_eq_div]
  have ha : ((a.den : ℚ)) ≠ 0 := Nat.cast_ne_zero.mpr a.den_nz
  push_cast
  conv_rhs => rw [← Rat.num_div_den a]
  field_simp

theorem ratSub_eq (a b : Rat) : ratSub a b = a - b := by
  unfold ratSub
  rw [ratAdd_eq, ratNeg_eq, sub_eq_add_neg]

theorem ratMul_eq (a b : Rat) : ratMul a b = a * b := by
  unfold ratMul
  rw [Rat.mkRat_eq_div]
  have ha : ((a.den : ℚ)) ≠ 0 := Nat.cast_ne_zero.mpr a.den_nz
  have hb : ((b.den : ℚ)) ≠ 0 := Nat.cast_ne_zero.mpr b.den_nz
  push_cast
  conv_rhs => rw [← Rat.num_div_den a, ← Rat.num_div_den b]
  field_simp

theorem ratDiv_eq (a b : Rat) : ratDiv a b = a / b := by
  unfold ratDiv
  by_cases hb : b = 0
  · subst hb; simp [Rat.mkRat_eq_div]
  have hbn : (b.num : ℚ) ≠ 0 := by exact_mod_cast Rat.num_ne_zero.mpr hb
  have ha : ((a.den : ℚ)) ≠ 0 := Nat.cast_ne_zero.mpr a.den_nz
  have hbd : ((b.den : ℚ)) ≠ 0 := Nat.cast_ne_zero.mpr b.den_nz
  rcases lt_or_le ((a.den : Int) * b.num) 0 with h | h
  · have key : (((-((a.den : Int) * b.num)).toNat : ℚ)) = -((a.den : ℚ) * (b.num : ℚ)) := by
      rw [← Int.cast_natCast, Int.toNat_of_nonneg (by omega)]
      push_cast
      ring
    rw [if_pos h, Rat.mkRat_eq_div, key]
    push_cast
    conv_rhs => rw [← Rat.num_div_den a, ← Rat.num_div_den b]
    field_simp
  · have key : ((((a.den : Int) * b.num).toNat : ℚ)) = ((a.den : ℚ) * (b.num : ℚ)) := by
      rw [← Int.cast_natCast, Int.toNat_of_nonneg h]
      push_cast
      ring
    rw [if_neg (not_lt.mpr h), Rat.mkRat_eq_div, key]
    push_cast
    conv_rhs => rw [← Rat.num_div_den a, ← Rat.num_div_den b]
    field_simp

/-- The padded operand of `arithmeticOp`: an empty value is replaced by the
number zero before the wrapped operator is applied. -/
def fillEmpty (v : JsVal) : JsVal :=
  if Helpers.isValueEmpty v then vNum 0 else v

/-- C2 (amended): an operator name absent from the binary registry makes the
non-arithmetic `BinaryOperand` constructor fail with the invalid-operator
error, and an operator name absent from the unary registry makes the
`UnaryOperand` constructor fail likewise; but with the arithmetic flag set
the constructor always succeeds, whatever the name, and an unknown arithmetic
operator evaluates to a silent `null`. -/
theorem c2_unknown_operator_construction :
    (∀ name, OperandMaker.binaryFunctions name = none →
      BinaryOperand.create name false
        = Except.error (OperandMaker.invalidOperatorMessage name))
    ∧ (∀ name, OperandMaker.unaryFunctions name = none →
      UnaryOperand.create name
        = Except.error (OperandMaker.invalidOperatorMessage name))
    ∧ (∀ name a b, OperandMaker.binaryFunctions name = none →
      (BinaryOperand.create name true).isOk = true
        ∧ OperandMaker.arithmeticOp name a b = vNull) := by
  refine ⟨fun name h => ?_, fun name h => ?_, fun name a b h => ⟨?_, ?_⟩⟩
  · simp [BinaryOperand.create, h]
  · simp [UnaryOperand.create, h]
  · simp [BinaryOperand.create, Except.isOk, Except.toBool]
  · simp [OperandMaker.arithmeticOp, h]

/-- C2 counterexample: constructing a `BinaryOperand` with the arithmetic
flag and the unregistered operator name `bogus` succeeds, and evaluating it
yields `null` silently, contrary to the claimed construction-time failure. -/
theorem c2_counterexample :
    (BinaryOperand.create "bogus" true).isOk = true
      ∧ OperandMaker.arithmeticOp "bogus" (vNum 1) (vNum 2) = vNull := by
  exact ⟨rfl, rfl⟩

/-- C2 witness: a concrete unregistered name fails non-arithmetic
construction with the invalid-operator error. -/
theorem c2_witness :
    OperandMaker.binaryFunctions "notanoperator" = none
      ∧ BinaryOperand.create "notanoperator" false
          = Except.error (OperandMaker.invalidOperatorMessage "notanoperator") :=
  ⟨rfl, c2_unknown_operator_construction.1 "notanoperator" rfl⟩

/-- Broadcast of a right-hand operand of `anyof`/`allof`: an array is its own
element list, anything else is a singleton. -/
def broadcastR : JsVal → List JsVal
  | vArr rs => rs
  | r => [r]

/-- Whether a value is an array, as `Array.isArray` tests. -/
def isArrayV : JsVal → Bool
  | vArr _ => true
  | _ => false

/-- C3 (amended): the full truth table of `anyof`/`allof`.  For `anyof`: a
falsy left side (`null`, `undefined`, `0`, the empty string, `false`, NaN)
yields true exactly when the right side is empty — the exception the claim
misses — while a truthy left side that is not an array, or is the empty
array, yields false whatever the right side; a non-empty array left side
yields true when the right side is empty (`null`, `undefined`, the empty
string, the empty array, NaN) and otherwise reduces to element containment
with the right side broadcast as a singleton when it is not a sequence.  For
`allof`: a falsy left side with non-empty right side yields false, and in
every other case — any truthy left side, or any left side with an empty
right side — the result is containment of every broadcast element of the
right side in the left side (for an array left side this needs no side
condition at all).  The four concrete evaluations of the claim all hold. -/
theorem c3_anyof_allof :
    (∀ l r, jsTruthy l = false → Helpers.isValueEmpty r = false →
      OperandMaker.allofB l r = false)
    ∧ (∀ l r, jsTruthy l = false → OperandMaker.anyofB l r = Helpers.isValueEmpty r)
    ∧ (∀ r, OperandMaker.anyofB (vArr []) r = false)
    ∧ (∀ l r, jsTruthy l = true → isArrayV l = false → OperandMaker.anyofB l r = false)
    ∧ (∀ xs r, xs ≠ [] → Helpers.isValueEmpty r = true →
      OperandMaker.anyofB (vArr xs) r = true)
    ∧ (∀ xs r, xs ≠ [] → Helpers.isValueEmpty r = false →
      OperandMaker.anyofB (vArr xs) r
        = (broadcastR r).any (fun b => OperandMaker.containsB (vArr xs) b))
    ∧ (∀ l r, jsTruthy l = true ∨ Helpers.isValueEmpty r = true →
      OperandMaker.allofB l r
        = (broadcastR r).all (fun b => OperandMaker.containsB l b))
    ∧ (∀ xs r, OperandMaker.allofB (vArr xs) r
        = (broadcastR r).all (fun b => OperandMaker.containsB (vArr xs) b))
    ∧ (∀ xs r, xs ≠ [] → OperandMaker.containsB (vArr xs) r
        = (broadcastR r).all (fun b => xs.any (fun l => Helpers.isTwoValueEquals l b)))
    ∧ OperandMaker.anyofB (vArr []) (vStr "x") = false
    ∧ OperandMaker.anyofB (vArr [vNum 1, vNum 2]) (vArr [vNum 2, vNum 3]) = true
    ∧ OperandMaker.allofB (vArr [vNum 1, vNum 2]) (vArr [vNum 1, vNum 2, vNum 3]) = false
    ∧ OperandMaker.allofB (vArr [vNum 1, vNum 2, vNum 3]) (vArr [vNum 1, vNum 2]) = true := by
  refine ⟨fun l r hl hr => ?_, fun l r hl => ?_, fun r => ?_, fun l r hl hna => ?_,
    fun xs r hxs hr => ?_, fun xs r hxs hr => ?_, fun l r hor => ?_,
    fun xs r => ?_, fun xs r hxs => ?_,
    by decide, by decide, by decide, by decide⟩
  · simp [OperandMaker.allofB, hl, hr]
  · cases hr : Helpers.isValueEmpty r <;> simp [OperandMaker.anyofB, hl, hr]
  · cases hr : Helpers.isValueEmpty r <;>
      simp [OperandMaker.anyofB, jsTruthy, Helpers.isValueEmpty, hr]
  · cases l <;> simp_all [OperandMaker.anyofB, isArrayV]
  · have hne : xs.isEmpty = false := by
      cases xs with
      | nil => exact absurd rfl hxs
      | cons x t => rfl
    simp [OperandMaker.anyofB, jsTruthy, hne, hr]
  · have hne : xs.isEmpty = false := by
      cases xs with
      | nil => exact absurd rfl hxs
      | cons x t => rfl
    cases r <;>
      simp_all [OperandMaker.anyofB, jsTruthy, broadcastR]
  · rcases hor with h | h
    · cases r <;> simp [OperandMaker.allofB, h, broadcastR]
    · cases r <;> simp [OperandMaker.allofB, h, broadcastR]
  · cases r <;> simp [OperandMaker.allofB, jsTruthy, broadcastR]
  · have hne : xs.isEmpty = false := by
      cases xs with
      | nil => exact absurd rfl hxs
      | cons x t => rfl
    cases r <;>
      simp [OperandMaker.containsB, OperandMaker.containsCore, jsTruthy, broadcastR, hne,
        List.any_eq, List.all_eq]

/-- C3 counterexample: `anyof(null, null)` evaluates to true although the
left side is empty and not a sequence, where the claim requires false. -/
theorem c3_counterexample : OperandMaker.anyofB vNull vNull = true := by decide

/-- C3 witness: a concrete falsy left side with non-empty right side makes
`allof` false. -/
theorem c3_witness :
    jsTruthy vNull = false
      ∧ Helpers.isValueEmpty (vNum 1) = false
      ∧ OperandMaker.allofB vNull (vNum 1) = false :=
  ⟨rfl, rfl, c3_anyof_allof.1 vNull (vNum 1) rfl rfl⟩

/-- C4 (amended): the unary `empty` operator is exactly JavaScript falsiness:
it returns true on `null`, `undefined`, `0`, the empty string, `false` and
NaN, and false on every array — the empty array included — so empty
sequences are NOT treated as empty; `notempty` is its negation and `negate`
is logical NOT. -/
theorem c4_unary_semantics :
    (∀ v, OperandMaker.uEmptyB v = !jsTruthy v)
    ∧ (∀ v, OperandMaker.uNotEmptyB v = !OperandMaker.uEmptyB v)
    ∧ (∀ v, OperandMaker.uNegateB v = !jsTruthy v)
    ∧ (∀ xs, OperandMaker.uEmptyB (vArr xs) = false)
    ∧ OperandMaker.uEmptyB vNull = true
    ∧ OperandMaker.uEmptyB vUndef = true
    ∧ OperandMaker.uEmptyB (vNum 0) = true
    ∧ OperandMaker.uEmptyB (vStr "") = true
    ∧ OperandMaker.uEmptyB (vBool false) = true
    ∧ OperandMaker.uEmptyB vNaN = true := by
  refine ⟨fun v => ?_, fun v => rfl, fun v => rfl, fun xs => rfl,
    rfl, rfl, by decide, by decide, rfl, rfl⟩
  cases v <;> rfl

/-- C4 counterexample: the empty array is not treated as empty by the unary
operators, contrary to the claim. -/
theorem c4_counterexample :
    OperandMaker.uEmptyB (vArr []) = false
      ∧ OperandMaker.uNotEmptyB (vArr []) = true := by
  exact ⟨rfl, rfl⟩

/-- C5: for each arithmetic operator name, the wrapped consumer first
replaces empty operands by the number zero and then applies the registry
entry; on finite numbers `plus`, `minus` and `mul` compute the field
operations; `div` and `mod` return `null` whenever the right operand is zero
or empty (and `div` computes the exact quotient on a non-zero divisor); the
three concrete evaluations of the claim hold. -/
theorem c5_arithmetic :
    (∀ a b, OperandMaker.arithmeticOp "plus" a b
        = OperandMaker.plusF (fillEmpty a) (fillEmpty b))
    ∧ (∀ a b, OperandMaker.arithmeticOp "minus" a b
        = OperandMaker.minusF (fillEmpty a) (fillEmpty b))
    ∧ (∀ a b, OperandMaker.arithmeticOp "mul" a b
        = OperandMaker.mulF (fillEmpty a) (fillEmpty b))
    ∧ (∀ a b, OperandMaker.arithmeticOp "div" a b
        = OperandMaker.divF (fillEmpty a) (fillEmpty b))
    ∧ (∀ a b, OperandMaker.arithmeticOp "mod" a b
        = OperandMaker.modF (fillEmpty a) (fillEmpty b))
    ∧ (∀ a b, OperandMaker.arithmeticOp "power" a b
        = OperandMaker.powerF (fillEmpty a) (fillEmpty b))
    ∧ (∀ x y : Rat, OperandMaker.arithmeticOp "plus" (vNum x) (vNum y) = vNum (x + y))
    ∧ (∀ x y : Rat, OperandMaker.arithmeticOp "minus" (vNum x) (vNum y) = vNum (x - y))
    ∧ (∀ x y : Rat, OperandMaker.arithmeticOp "mul" (vNum x) (vNum y) = vNum (x * y))
    ∧ (∀ x y : Rat, y ≠ 0 →
        OperandMaker.arithmeticOp "div" (vNum x) (vNum y) = vNum (x / y))
    ∧ (∀ a b, Helpers.isValueEmpty b = true →
        OperandMaker.arithmeticOp "div" a b = vNull
          ∧ OperandMaker.arithmeticOp "mod" a b = vNull)
    ∧ (∀ a, OperandMaker.arithmeticOp "div" a (vNum 0) = vNull)
    ∧ (∀ a, OperandMaker.arithmeticOp "mod" a (vNum 0) = vNull)
    ∧ OperandMaker.arithmeticOp "div" (vNum 10) (vNum 0) = vNull
    ∧ OperandMaker.arithmeticOp "mod" (vNum 7) (vNum 0) = vNull
    ∧ OperandMaker.arithmeticOp "plus" vNull (vNum 3) = vNum 3 := by
  refine ⟨fun a b => rfl, fun a b => rfl, fun a b => rfl, fun a b => rfl,
    fun a b => rfl, fun a b => rfl, fun x y => ?_, fun x y => ?_, fun x y => ?_,
    fun x y hy => ?_, fun a b hb => ⟨?_, ?_⟩, fun a => ?_, fun a => ?_,
    by decide, by decide, by decide⟩
  · show OperandMaker.plusF (vNum x) (vNum y) = vNum (x + y)
    simp [OperandMaker.plusF, toPrimitiveV, isStrV, jsToNumber, jnAdd, ofJsNum, ratAdd_eq]
  · show OperandMaker.minusF (vNum x) (vNum y) = vNum (x - y)
    simp [OperandMaker.minusF, jsToNumber, jnSub, jnAdd, jnNeg, ofJsNum, ratAdd_eq,
      ratNeg_eq, sub_eq_add_neg]
  · show OperandMaker.mulF (vNum x) (vNum y) = vNum (x * y)
    simp [OperandMaker.mulF, jsToNumber, jnMul, ofJsNum, ratMul_eq]
  · show OperandMaker.divF (vNum x) (vNum y) = vNum (x / y)
    simp [OperandMaker.divF, jsTruthy, hy, jsToNumber, jnDiv, ofJsNum, ratDiv_eq]
  · show OperandMaker.arithmeticOp "div" a b = vNull
    simp only [OperandMaker.arithmeticOp, hb, if_true]
    cases ha : Helpers.isValueEmpty a <;>
      simp [OperandMaker.binaryFunctions, OperandMaker.divF, jsTruthy]
  · show OperandMaker.arithmeticOp "mod" a b = vNull
    simp only [OperandMaker.arithmeticOp, hb, if_true]
    cases ha : Helpers.isValueEmpty a <;>
      simp [OperandMaker.binaryFunctions, OperandMaker.modF, jsTruthy]
  · show OperandMaker.arithmeticOp "div" a (vNum 0) = vNull
    simp only [OperandMaker.arithmeticOp]
    cases ha : Helpers.isValueEmpty a <;>
      simp [OperandMaker.binaryFunctions, OperandMaker.divF, jsTruthy, Helpers.isValueEmpty]
  · show OperandMaker.arithmeticOp "mod" a (vNum 0) = vNull
    simp only [OperandMaker.arithmeticOp]
    cases ha : Helpers.isValueEmpty a <;>
      simp [OperandMaker.binaryFunctions, OperandMaker.modF, jsTruthy, Helpers.isValueEmpty]

/-- C5 witness: concrete instances discharging the hypotheses of the
conditional parts: division by the empty value and by a non-zero value. -/
theorem c5_witness :
    Helpers.isValueEmpty vNull = true
      ∧ OperandMaker.arithmeticOp "div" (vNum 10) vNull = vNull
      ∧ OperandMaker.arithmeticOp "mod" (vNum 10) vNull = vNull
      ∧ ((4 : Rat) ≠ 0 ∧ OperandMaker.arithmeticOp "div" (vNum 10) (vNum 4) = vNum (10 / 4)) := by
  obtain ⟨-, -, -, -, -, -, -, -, -, hdiv, hempty, -⟩ := c5_arithmetic
  exact ⟨rfl, (hempty (vNum 10) vNull rfl).1, (hempty (vNum 10) vNull rfl).2,
    by norm_num, hdiv 10 4 (by norm_num)⟩

/-- The collection loop of the validator runner computes the in-order
filtered list of errors. -/
theorem runLoop_eq_filterMap (o : ValidatorOwnerM) (vs : List ValidatorM) :
    runLoop o vs = vs.filterMap (fun v => (applyValidator o v).bind ValidatorResult.error) := by
  induction vs with
  | nil => rfl
  | cons v vs ih =>
    cases hv : applyValidator o v with
    | none => simp [runLoop, hv, ih]
    | some res =>
      cases he : res.error with
      | none => simp [runLoop, hv, he, ih]
      | some e => simp [runLoop, hv, he, ih]

/-- Changing only the validator list leaves the per-validator application
unchanged. -/
theorem applyValidator_validators (o : ValidatorOwnerM) (vs : List ValidatorM)
    (v : ValidatorM) :
    applyValidator { o with validators := vs } v = applyValidator o v := rfl

/-- C7: the validator runner applies every attached validator in
registration order — single-value validators through `validate`, whole-data
validators through `validateAllValues` — collects exactly the non-null
errors, preserving order, and never stops early: the run of a concatenated
validator list is the concatenation of the runs. -/
theorem c7_runner_collects_all :
    (∀ o : ValidatorOwnerM,
      ValidatorRunner.run o
        = o.validators.filterMap (fun v => (applyValidator o v).bind ValidatorResult.error))
    ∧ (∀ (o : ValidatorOwnerM) (vs ws : List ValidatorM),
      ValidatorRunner.run { o with validators := vs ++ ws }
        = ValidatorRunner.run { o with validators := vs }
          ++ ValidatorRunner.run { o with validators := ws }) := by
  constructor
  · intro o
    exact runLoop_eq_filterMap o o.validators
  · intro o vs ws
    show runLoop _ (vs ++ ws) = runLoop _ vs ++ runLoop _ ws
    rw [runLoop_eq_filterMap, runLoop_eq_filterMap, runLoop_eq_filterMap,
      List.filterMap_append]
    simp [applyValidator]

/-- C9: once the survey is completed, `checkTriggers` evaluates no trigger
at all, and consequently no value mutation through `setValue` ever produces a
trigger evaluation. -/
theorem c9_no_triggers_when_completed :
    ∀ (s : SurveyState) (b : Bool) (hook : String → JsVal → JsVal)
      (name : String) (v : JsVal) (locNotification : Bool) (i : Nat),
      s.isCompleted = true →
      SurveyModel.checkTriggersEvents s b = []
        ∧ Event.triggerChecked i ∉ (SurveyModel.setValue hook s name v locNotification).2 := by
  intro s b hook name v locNotification i hc
  have hT : ∀ (s2 : SurveyState) (b2 : Bool), s2.isCompleted = true →
      SurveyModel.checkTriggersEvents s2 b2 = [] := by
    intro s2 b2 h2
    simp [SurveyModel.checkTriggersEvents, h2]
  refine ⟨hT s b hc, ?_⟩
  by_cases hEq : (SurveyModel.isValueEqual s name (hook name v)
      && Helpers.isTwoValueEquals (hook name v) v) = true
  · simp [SurveyModel.setValue, hEq]
  · have hTr := hT { s with values := delAssoc s.values name } false hc
    have hTw := hT { s with values := setAssoc s.values name (hook name v) } false hc
    have hCr : SurveyModel.runConditionsEvents
        { s with values := delAssoc s.values name } = [] := by
      simp [SurveyModel.runConditionsEvents, hc]
    have hCw : SurveyModel.runConditionsEvents
        { s with values := setAssoc s.values name (hook name v) } = [] := by
      simp [SurveyModel.runConditionsEvents, hc]
    cases hE : Helpers.isValueEmpty (hook name v) <;>
      cases locNotification <;>
      simp [SurveyModel.setValue, hEq, hE, hTr, hTw, hCr, hCw]

/-- C9 witness: a concrete completed survey with an attached trigger produces
no evaluation from `checkTriggers` nor from a value write. -/
theorem c9_witness :
    SurveyModel.checkTriggersEvents
        ⟨[("q1", vNum 5)], true, [⟨false, 7⟩], 0, 1, false, 0, ["q1"], [], false⟩ false = []
      ∧ Event.triggerChecked 7 ∉
          (SurveyModel.setValue (fun _ x => x)
            ⟨[("q1", vNum 5)], true, [⟨false, 7⟩], 0, 1, false, 0, ["q1"], [], false⟩
            "q1" (vNum 6) false).2 :=
  c9_no_triggers_when_completed
    ⟨[("q1", vNum 5)], true, [⟨false, 7⟩], 0, 1, false, 0, ["q1"], [], false⟩
    false (fun _ x => x) "q1" (vNum 6) false 7 rfl

/-- C10: calling `setValue` with a value the store already holds (under the
normalization that identifies the empty string and `undefined` with `null`),
with the value-changing hook returning its input unchanged, leaves the survey
state unchanged and performs no action: no store write, no trigger
evaluation, no condition run, no notification. -/
theorem c10_setValue_frame :
    ∀ (hook : String → JsVal → JsVal) (s : SurveyState) (name : String) (v : JsVal),
      hook name v = v →
      SurveyModel.isValueEqual s name v = true →
      SurveyModel.setValue hook s name v false = (s, []) := by
  intro hook s name v h1 h2
  unfold SurveyModel.setValue
  rw [h1]
  simp [h2, Helpers.isTwoValueEquals, eqDeep_refl]

/-- C10 witness: a concrete store holding `q1 = 5` is left untouched by
writing `5` to `q1` again. -/
theorem c10_witness :
    ((fun (_ : String) (x : JsVal) => x) "q1" (vNum 5) = vNum 5)
      ∧ SurveyModel.isValueEqual
          ⟨[("q1", vNum 5)], false, [], 0, 1, false, 0, ["q1"], [], false⟩ "q1" (vNum 5) = true
      ∧ SurveyModel.setValue (fun _ x => x)
          ⟨[("q1", vNum 5)], false, [], 0, 1, false, 0, ["q1"], [], false⟩ "q1" (vNum 5) false
        = (⟨[("q1", vNum 5)], false, [], 0, 1, false, 0, ["q1"], [], false⟩, []) :=
  ⟨rfl, by decide,
    c10_setValue_frame (fun _ x => x)
      ⟨[("q1", vNum 5)], false, [], 0, 1, false, 0, ["q1"], [], false⟩ "q1" (vNum 5)
      rfl (by decide)⟩

/-- A survey state on the first of three pages, with server validation
pending and one question, used to exercise the server-validation completion
callback. -/
def serverValidationState : SurveyState :=
  ⟨[], false, [], 0, 3, true, 0, ["q1"], [], false⟩

/-- C8: evaluating the code at the failing input.  After the completion
callback handed out by `doServerValidation` has run once with no errors, a
second invocation is NOT a no-op: on a non-last page the current page
advances a second time (index 0 to 1 to 2), and on the last page the survey
is completed a second time (`onComplete` fires twice).  The claim (and the
spec) require the second call to do nothing. -/
theorem c8_second_completion_not_noop :
    (SurveyModel.doServerValidation serverValidationState true).1 = true
      ∧ (SurveyModel.completeServerValidation serverValidationState []).currentPageIndex = 1
      ∧ (SurveyModel.completeServerValidation
          (SurveyModel.completeServerValidation serverValidationState []) []).currentPageIndex
          = 2
      ∧ (SurveyModel.completeServerValidation
          { serverValidationState with currentPageIndex := 2 } []).completeFired = 1
      ∧ (SurveyModel.completeServerValidation
          (SurveyModel.completeServerValidation
            { serverValidationState with currentPageIndex := 2 } []) []).completeFired = 2 := by
  refine ⟨rfl, rfl, rfl, rfl, rfl⟩

/-- A match predicate standing for the compiled regular expression `^a$`:
it accepts exactly the string `a`. -/
def matchLetterA : String → Bool := fun s => s == "a"

/-- The element loop of `RegexValidator.validate` returns `none` exactly when
every element passes the test. -/
theorem elemLoop_none_iff (rv : RegexValidatorM) (name : String) (xs : List JsVal) :
    RegexValidatorM.elemLoop rv name xs = none
      ↔ ∀ x ∈ xs, rv.test (jsToString x) = true := by
  induction xs with
  | nil => simp [RegexValidatorM.elemLoop]
  | cons x xs ih =>
    cases ht : rv.test (jsToString x) with
    | true =>
      simp [RegexValidatorM.elemLoop, RegexValidatorM.hasError, ht, ih]
    | false =>
      simp [RegexValidatorM.elemLoop, RegexValidatorM.hasError, ht]

/-- The element loop reports the first failing element. -/
theorem elemLoop_first_fail (rv : RegexValidatorM) (name : String)
    (pre post : List JsVal) (x : JsVal)
    (hpre : ∀ y ∈ pre, rv.test (jsToString y) = true)
    (hx : rv.test (jsToString x) = false) :
    RegexValidatorM.elemLoop rv name (pre ++ x :: post) = some ⟨x, some ⟨name⟩⟩ := by
  induction pre with
  | nil => simp [RegexValidatorM.elemLoop, RegexValidatorM.hasError, hx]
  | cons y ys ih =>
    have hy : rv.test (jsToString y) = true := hpre y (by simp)
    have hys : ∀ z ∈ ys, rv.test (jsToString z) = true := fun z hz => hpre z (by simp [hz])
    simp [RegexValidatorM.elemLoop, RegexValidatorM.hasError, hy, ih hys]

/-- C6 (amended): for a non-empty pattern and a non-empty sequence value,
`RegexValidator.validate` succeeds exactly when every element matches AND the
string coercion of the whole sequence also matches the pattern — the
fall-through after the element loop applies one additional check to the
sequence as a whole.  When some element fails, the first failing element is
reported. -/
theorem c6_regex_validate :
    ∀ (rv : RegexValidatorM) (xs : List JsVal) (name : String),
      rv.regex.isEmpty = false → xs ≠ [] →
      (RegexValidatorM.validate rv (vArr xs) name = none
          ↔ (∀ x ∈ xs, rv.test (jsToString x) = true)
            ∧ rv.test (jsToString (vArr xs)) = true)
        ∧ (∀ pre x post, xs = pre ++ x :: post →
            (∀ y ∈ pre, rv.test (jsToString y) = true) →
            rv.test (jsToString x) = false →
            RegexValidatorM.validate rv (vArr xs) name = some ⟨x, some ⟨name⟩⟩) := by
  intro rv xs name hpat hxs
  have hne : xs.isEmpty = false := by
    cases xs with
    | nil => exact absurd rfl hxs
    | cons x t => rfl
  have hval : RegexValidatorM.validate rv (vArr xs) name
      = (match RegexValidatorM.elemLoop rv name xs with
         | some res => some res
         | none => RegexValidatorM.hasError rv (vArr xs) name) := by
    simp [RegexValidatorM.validate, hpat, Helpers.isValueEmpty, hne]
  constructor
  · rw [hval]
    cases hloop : RegexValidatorM.elemLoop rv name xs with
    | some res =>
      have hnotall := (not_iff_not.mpr (elemLoop_none_iff rv name xs)).mp (by simp [hloop])
      simp only [hloop]
      constructor
      · intro h; exact absurd h (by simp)
      · intro h; exact absurd (h.1) (by simpa using hnotall)
    | none =>
      have hall := (elemLoop_none_iff rv name xs).mp hloop
      cases hw : rv.test (jsToString (vArr xs)) with
      | true =>
        simp only [hloop, RegexValidatorM.hasError, hw, if_true]
        simp only [true_iff, iff_true, and_true]
        exact fun x hx => hall x hx
      | false => simp [hloop, RegexValidatorM.hasError, hw, hall]
  · intro pre x post hsplit hpre hx
    rw [hval, hsplit, elemLoop_first_fail rv name pre post x hpre hx]

/-- C6 counterexample: with the pattern accepting exactly the string `a`,
every element of `["a", "a"]` matches, yet validation fails: the final
fall-through tests the whole array, whose string coercion is `a,a`. -/
theorem c6_counterexample :
    matchLetterA (jsToString (vStr "a")) = true
      ∧ RegexValidatorM.validate ⟨"a", matchLetterA⟩ (vArr [vStr "a", vStr "a"]) "q"
          = some ⟨vArr [vStr "a", vStr "a"], some ⟨"q"⟩⟩ := by
  exact ⟨rfl, rfl⟩

/-- C6 witness: a singleton sequence whose element (and whole coercion)
matches validates successfully, through the amended equivalence. -/
theorem c6_witness :
    ("a" : String).isEmpty = false
      ∧ RegexValidatorM.validate ⟨"a", matchLetterA⟩ (vArr [vStr "a"]) "q" = none :=
  ⟨rfl,
    ((c6_regex_validate ⟨"a", matchLetterA⟩ [vStr "a"] "q" rfl (by simp)).1).mpr
      (by refine ⟨?_, rfl⟩; intro x hx; simp at hx; subst hx; rfl)⟩

/-- A single-character search fails exactly when the character is absent. -/
theorem indexOfAux_single_none (c : Char) :
    ∀ l : List Char, indexOfAux [c] l = none ↔ c ∉ l
  | [] => by simp [indexOfAux]
  | a :: t => by
    by_cases h : c = a
    · subst h
      simp [indexOfAux, List.isPrefixOf]
    · have hba : (c == a) = false := by simp [h]
      simp [indexOfAux, List.isPrefixOf, hba, indexOfAux_single_none c t,
        Option.map_eq_none, Ne.symm, h]

/-- A single-character search lands at index two or beyond exactly when the
character occurs, but not among the first two positions. -/
theorem indexOfAux_single_ge_two (c : Char) :
    ∀ l : List Char,
      (∃ n, indexOfAux [c] l = some n ∧ 2 ≤ n) ↔ (c ∈ l ∧ c ∉ l.take 2)
  | [] => by simp [indexOfAux]
  | [a] => by
    by_cases h : c = a
    · subst h
      simp [indexOfAux, List.isPrefixOf]
    · have hba : (c == a) = false := by simp [h]
      simp [indexOfAux, List.isPrefixOf, hba, h]
  | a :: b :: t => by
    by_cases ha : c = a
    · subst ha
      simp [indexOfAux, List.isPrefixOf]
    · have hba : (c == a) = false := by simp [ha]
      by_cases hb : c = b
      · subst hb
        simp [indexOfAux, List.isPrefixOf, hba]
      · have hbb : (c == b) = false := by simp [hb]
        cases hv : indexOfAux [c] t with
        | none =>
          have hmem := (indexOfAux_single_none c t).mp hv
          simp [indexOfAux, List.isPrefixOf, hba, hbb, hv, ha, hb, hmem]
        | some m =>
          have hmem : c ∈ t := by
            by_contra hcm
            rw [(indexOfAux_single_none c t).mpr hcm] at hv
            exact Option.noConfusion hv
          have hL : indexOfAux [c] (a :: b :: t) = some (m + 1 + 1) := by
            simp [indexOfAux, List.isPrefixOf, hba, hbb, hv]
          simp [hL, ha, hb, hmem]
          try omega

/-- The `indexOf` test `> -1` on a single-character substring is membership. -/
theorem jsIndexOf_gt_neg_one (s sub : String) (c : Char) (hsub : sub.toList = [c]) :
    jsIndexOf s sub > -1 ↔ c ∈ s.toList := by
  unfold jsIndexOf
  rw [hsub]
  cases h : indexOfAux [c] s.toList with
  | none =>
    have hm := (indexOfAux_single_none c s.toList).mp h
    have hlt : ¬((-1 : Int) > -1) := by omega
    exact iff_of_false hlt hm
  | some n =>
    have hmem : c ∈ s.toList := by
      by_contra hcm
      rw [(indexOfAux_single_none c s.toList).mpr hcm] at h
      exact Option.noConfusion h
    have hgt : ((n : Nat) : Int) > -1 := by omega
    exact iff_of_true hgt hmem

/-- The `indexOf` test `> 1` on a single-character substring is membership
outside the first two positions. -/
theorem jsIndexOf_gt_one (s sub : String) (c : Char) (hsub : sub.toList = [c]) :
    jsIndexOf s sub > 1 ↔ (c ∈ s.toList ∧ c ∉ s.toList.take 2) := by
  unfold jsIndexOf
  rw [hsub]
  constructor
  · intro h
    cases hv : indexOfAux [c] s.toList with
    | none =>
      rw [hv] at h
      have h2 : ((-1 : Int) > 1) := h
      omega
    | some n =>
      rw [hv] at h
      have h2 : (((n : Nat) : Int) > 1) := h
      exact (indexOfAux_single_ge_two c s.toList).mp ⟨n, hv, by omega⟩
  · intro h
    obtain ⟨n, hv, hn⟩ := (indexOfAux_single_ge_two c s.toList).mpr h
    rw [hv]
    show ((n : Nat) : Int) > 1
    omega

/-- Whether a value is of JavaScript number type (a finite number, NaN, or an
infinity). -/
def isNumberResult : JsVal → Bool
  | vNum _ => true
  | vNaN => true
  | vInf _ => true
  | _ => false

/-- Character-level reading of `Const.isNumericValue`: for a non-empty
string, numeric-ness is the absence of the five blocking glyphs anywhere, a
plus sign confined to the first two positions, and a finite `Number(value)`
conversion. -/
theorem isNumericValue_iff (s : String) (hs : s.isEmpty = false) :
    isNumericValue s = true
      ↔ (('-' ∉ s.toList ∧ '*' ∉ s.toList ∧ '^' ∉ s.toList ∧ '/' ∉ s.toList
          ∧ '%' ∉ s.toList)
        ∧ ('+' ∉ s.toList ∨ '+' ∈ s.toList.take 2)
        ∧ (∃ q, jsStringToNumber s = JsNum.fin q)) := by
  have hminus := jsIndexOf_gt_neg_one s "-" '-' rfl
  have hplus := jsIndexOf_gt_one s "+" '+' rfl
  have hmul := jsIndexOf_gt_neg_one s "*" '*' rfl
  have hpow := jsIndexOf_gt_neg_one s "^" '^' rfl
  have hdiv := jsIndexOf_gt_neg_one s "/" '/' rfl
  have hmod := jsIndexOf_gt_neg_one s "%" '%' rfl
  unfold isNumericValue
  by_cases hbad : jsIndexOf s "-" > -1 ∨ jsIndexOf s "+" > 1 ∨ jsIndexOf s "*" > -1
      ∨ jsIndexOf s "^" > -1 ∨ jsIndexOf s "/" > -1 ∨ jsIndexOf s "%" > -1
  · rw [if_pos ⟨by simp [hs], hbad⟩]
    constructor
    · intro h; exact absurd h (by simp)
    · rintro ⟨⟨h1, h2, h3, h4, h5⟩, h6, -⟩
      rcases hbad with hb | hb | hb | hb | hb | hb
      · exact absurd (hminus.mp hb) h1
      · rcases h6 with h6 | h6
        · exact absurd (hplus.mp hb).1 h6
        · exact absurd h6 (hplus.mp hb).2
      · exact absurd (hmul.mp hb) h2
      · exact absurd (hpow.mp hb) h3
      · exact absurd (hdiv.mp hb) h4
      · exact absurd (hmod.mp hb) h5
  · rw [if_neg (by
      intro hcon
      exact hbad hcon.2)]
    push_neg at hbad
    obtain ⟨hb1, hb2, hb3, hb4, hb5, hb6⟩ := hbad
    have hc1 : '-' ∉ s.toList := fun hm => absurd (hminus.mpr hm) (not_lt.mpr hb1)
    have hc3 : '*' ∉ s.toList := fun hm => absurd (hmul.mpr hm) (not_lt.mpr hb3)
    have hc4 : '^' ∉ s.toList := fun hm => absurd (hpow.mpr hm) (not_lt.mpr hb4)
    have hc5 : '/' ∉ s.toList := fun hm => absurd (hdiv.mpr hm) (not_lt.mpr hb5)
    have hc6 : '%' ∉ s.toList := fun hm => absurd (hmod.mpr hm) (not_lt.mpr hb6)
    have hc2 : '+' ∉ s.toList ∨ '+' ∈ s.toList.take 2 := by
      by_cases hp : '+' ∈ s.toList
      · right
        by_contra hnp
        exact absurd (hplus.mpr ⟨hp, hnp⟩) (not_lt.mpr hb2)
      · exact Or.inl hp
    cases hnum : jsStringToNumber s with
    | fin q =>
      exact iff_of_true rfl ⟨⟨hc1, hc3, hc4, hc5, hc6⟩, hc2, q, rfl⟩
    | nan =>
      constructor
      · intro hcon
        exact absurd hcon (by simp)
      · rintro ⟨-, -, q, hq⟩
        exact JsNum.noConfusion hq
    | inf n =>
      constructor
      · intro hcon
        exact absurd hcon (by simp)
      · rintro ⟨-, -, q, hq⟩
        exact JsNum.noConfusion hq

/-- C1 (amended): a string literal is promoted to a JavaScript number
exactly when it is non-empty, is not a boolean-looking string, contains NO
minus sign and none of `* ^ / %` at ANY position — a leading minus sign also
blocks promotion — contains `+` only within its first two positions, and
`Number(value)` is finite; a promoted string starting with `0x` parses via
`parseInt`, every other promoted string via `parseFloat`.  In particular
`"-5"` is NOT promoted: it stays the string `"-5"`. -/
theorem c1_string_promotion :
    (∀ s : String,
      isNumberResult (getCorrectValue (vStr s)) = true
        ↔ (s.isEmpty = false ∧ isBooleanValue s = false
            ∧ ('-' ∉ s.toList ∧ '*' ∉ s.toList ∧ '^' ∉ s.toList ∧ '/' ∉ s.toList
                ∧ '%' ∉ s.toList)
            ∧ ('+' ∉ s.toList ∨ '+' ∈ s.toList.take 2)
            ∧ (∃ q, jsStringToNumber s = JsNum.fin q)))
    ∧ (∀ s : String, s.isEmpty = false → isBooleanValue s = false →
        isNumericValue s = true →
        getCorrectValue (vStr s)
          = (if jsIndexOf s "0x" = 0 then ofJsNum (jsParseInt s)
             else ofJsNum (jsParseFloat s)))
    ∧ getCorrectValue (vStr "+5") = vNum 5
    ∧ getCorrectValue (vStr "-5") = vStr "-5" := by
  refine ⟨fun s => ?_, fun s hs hbool hnum => ?_, by decide, by decide⟩
  · by_cases hs : s.isEmpty
    · have hres : getCorrectValue (vStr s) = vStr s := by
        simp [getCorrectValue, hs]
      rw [hres]
      simp [isNumberResult, hs]
    · replace hs : s.isEmpty = false := by simpa using hs
      by_cases hbool : isBooleanValue s
      · have hres : getCorrectValue (vStr s) = vBool (strToLower s = "true") := by
          simp [getCorrectValue, hs, hbool]
        rw [hres]
        simp [isNumberResult, hbool]
      · replace hbool : isBooleanValue s = false := by simpa using hbool
        by_cases hnum : isNumericValue s
        · have hres : getCorrectValue (vStr s)
              = (if jsIndexOf s "0x" = 0 then ofJsNum (jsParseInt s)
                 else ofJsNum (jsParseFloat s)) := by
            simp [getCorrectValue, hs, hbool, hnum]
          rw [hres]
          have hL : isNumberResult
              (if jsIndexOf s "0x" = 0 then ofJsNum (jsParseInt s)
               else ofJsNum (jsParseFloat s)) = true := by
            split <;> rename_i hx
            · cases h : jsParseInt s <;> simp [ofJsNum, isNumberResult]
            · cases h : jsParseFloat s <;> simp [ofJsNum, isNumberResult]
          rw [hL]
          have hR := (isNumericValue_iff s hs).mp hnum
          exact iff_of_true rfl ⟨hs, hbool, hR.1, hR.2.1, hR.2.2⟩
        · replace hnum : isNumericValue s = false := by simpa using hnum
          have hres : getCorrectValue (vStr s) = vStr s := by
            simp [getCorrectValue, hs, hbool, hnum]
          rw [hres]
          constructor
          · intro hcon
            exact absurd hcon (by simp [isNumberResult])
          · rintro ⟨-, -, hglyph, hpl, hfin⟩
            have := (isNumericValue_iff s hs).mpr ⟨hglyph, hpl, hfin⟩
            rw [hnum] at this
            exact Bool.noConfusion this
  · simp [getCorrectValue, hs, hbool, hnum]

/-- C1 counterexample: the literal `"-5"` is finite for `Number` and carries
its minus sign at position 0, yet it is NOT promoted: `getCorrectValue`
returns the string unchanged, not the number `-5`. -/
theorem c1_counterexample :
    getCorrectValue (vStr "-5") = vStr "-5"
      ∧ getCorrectValue (vStr "-5") ≠ vNum (ratOfInt (-5))
      ∧ jsStringToNumber "-5" = JsNum.fin (ratOfInt (-5)) := by
  refine ⟨rfl, by decide, by decide⟩

/-- C1 witness: the hexadecimal literal `"0x1A"` satisfies every hypothesis
of the promotion branch and parses through `parseInt`. -/
theorem c1_witness :
    ("0x1A" : String).isEmpty = false
      ∧ isBooleanValue "0x1A" = false
      ∧ isNumericValue "0x1A" = true
      ∧ getCorrectValue (vStr "0x1A")
          = (if jsIndexOf "0x1A" "0x" = 0 then ofJsNum (jsParseInt "0x1A")
             else ofJsNum (jsParseFloat "0x1A")) :=
  ⟨rfl, by decide, by decide,
    c1_string_promotion.2.1 "0x1A" rfl (by decide) (by decide)⟩
